import Mathlib

/-!
Verification of the location-resolution engine of
`src/notebooks/extract_location.py` (extraction of road names and towns from
Maltese police press releases).

Modelling conventions:
* Text is modelled as `List Char`.  Python's single-character
  `str.replace(a, b)` is the character-wise map `replaceChar`.
* Absent content (`None` / `NaN`) is modelled as `Option (List Char)` being
  `none`; the Python truthiness test `if not content` additionally treats the
  empty string as absent.
* The gazetteer (`locations_df`, column `Town`) is modelled as the list of its
  town names in row order.
* Python's stable `list.sort` is modelled by `List.insertionSort`, which is
  stable and whose `orderedInsert` places an element before the first
  non-smaller element, matching CPython's stable sort for the keys used here.
* `re.search` of the concrete patterns used by the source is modelled by
  specialised backtracking searchers (leftmost match first, alternatives and
  quantifier choices explored in the standard priority order of Python's `re`
  engine).  `\w` (with Python's default Unicode semantics) is modelled for the
  character repertoire that actually occurs in the program's data: ASCII
  alphanumerics, the underscore and the Maltese/accented letters of the
  source's own ASCII-mapping table.
-/

set_option maxRecDepth 8000

namespace ExtractLocation

abbrev Str := List Char

/-- Single-character replacement; models Python `text.replace(a, b)` for
one-character `a`, `b`. -/
def replaceChar (a b : Char) (s : Str) : Str :=
  s.map (fun c => if c = a then b else c)

/-- The fixed Maltese-to-ASCII character table of `create_ascii_mapping`
(insertion order of the Python dict preserved). -/
def create_ascii_mapping : List (Char × Char) :=
  [('Ħ', 'H'), ('ħ', 'h'),
   ('Ġ', 'G'), ('ġ', 'g'),
   ('Ż', 'Z'), ('ż', 'z'),
   ('Ċ', 'C'), ('ċ', 'c'),
   ('À', 'A'), ('à', 'a'),
   ('È', 'E'), ('è', 'e'),
   ('Ì', 'I'), ('ì', 'i'),
   ('Ò', 'O'), ('ò', 'o'),
   ('Ù', 'U'), ('ù', 'u'),
   ('\u2018', '\u0027'), ('\u2019', '\u0027')]

/-- Model of `to_ascii`: sequential replacement of every pair of the mapping table. -/
def to_ascii (s : Str) : Str :=
  create_ascii_mapping.foldl (fun acc p => replaceChar p.1 p.2 acc) s

/-- The apostrophe variants folded by `normalize_apostrophes`. -/
def apostrophe_variants : List Char :=
  ['\u2018', '\u2019', '\u0060', '\u00B4', '\u2032']

/-- Model of `normalize_apostrophes`: fold all apostrophe variants to ASCII `'`. -/
def normalize_apostrophes (s : Str) : Str :=
  apostrophe_variants.foldl (fun acc a => replaceChar a '\u0027' acc) s

/-- The ordered list of Maltese article prefixes of `create_town_variations`. -/
def prefixes : List Str :=
  (["Il-", "L-", "Ħal ", "Ħaż-", "Ħ\u0027",
    "Is-", "Iż-", "In-", "Ir-", "Ix-",
    "Ta\u0027 ", "Tal-", "Tas-"]).map String.toList

/-- Model of `create_town_variations`: the town itself, plus the remainder after the
first matching article prefix (Python's loop `break`s at the first
`startswith` hit and appends the remainder only when it is non-empty and not
already present, i.e. different from the town itself). -/
def create_town_variations (town : Str) : List Str :=
  match prefixes.find? (fun p => p.isPrefixOf town) with
  | some p =>
    if town.drop p.length ≠ [] ∧ town.drop p.length ≠ town then
      [town, town.drop p.length]
    else [town]
  | none => [town]

/-- The static English-alias catalog of `get_english_aliases`
(dict insertion order preserved). -/
def get_english_aliases : List (Str × List Str) :=
  [("Raħal Ġdid", ["Paola"]),
   ("Bormla", ["Cospicua"]),
   ("Il-Birgu", ["Vittoriosa"]),
   ("L-Isla", ["Senglea"]),
   ("San Pawl Il-Baħar",
     ["St Paul\u0027s Bay", "St. Paul\u0027s Bay", "St Pauls Bay",
      "Buġibba", "Bugibba", "Qawra",
      "St Paul\u2019s Bay", "St. Paul\u2019s Bay"]),
   ("L-Imtarfa", ["Mtarfa"]),
   ("Il-Gżira", ["Gzira"]),
   ("L-Imġarr", ["Mgarr", "Mġarr"]),
   ("Ħal Ghaxaq", ["Għaxaq", "Ghaxaq"]),
   ("Ir-Rabat", ["Victoria"]),
   ("San Ġiljan",
     ["St Julian\u0027s", "St. Julian\u0027s", "St Julians", "St. Julians",
      "St Julian\u2019s", "St. Julian\u2019s"]),
   ("Tal-Pieta\u0027",
     ["Tal-Pietà", "Pietà", "Pieta", "Gwardamanġa", "Gwardamanga"]),
   ("Marsaskala", ["Marsascala"]),
   ("Ħ\u0027Attard", ["Attard"]),
   ("Il-Mellieħa", ["Mellieha", "Mellieħa"]),
   ("L-Imsida", ["Msida"]),
   ("Is-Swieqi", ["Swieqi"]),
   ("Ħal Balzan", ["Balzan"]),
   ("Ta\u0027 Xbiex", ["Xbiex"])].map
    (fun p => (p.1.toList, p.2.map String.toList))

/-- Alias lookup: `english_aliases[town]` when present, else no aliases. -/
def aliasesFor (town : Str) : List Str :=
  match get_english_aliases.find? (fun p => p.1 == town) with
  | some p => p.2
  | none => []

/-- The `ascii_variations` loop of `build_town_lookup`: ASCII folds that
differ from their source and are not yet present anywhere. -/
def asciiExtras (variations : List Str) : List Str :=
  variations.foldl (fun acc var =>
    let av := to_ascii var
    if av ≠ var ∧ av ∉ variations ∧ av ∉ acc then acc ++ [av] else acc) []

/-- The complete variant list built for one town inside `build_town_lookup`:
article-prefix variations, then catalog aliases, then new ASCII folds. -/
def town_variants (town : Str) : List Str :=
  let variations := create_town_variations town ++ aliasesFor town
  variations ++ asciiExtras variations

/-- Sort key of the lookup: `max(len(v) for v in variations)` (the variant
lists are never empty, so the fold from `0` computes exactly Python's `max`). -/
def maxVarLen (vs : List Str) : Nat :=
  vs.foldl (fun a v => max a v.length) 0

/-- Descending-by-longest-variant order used by `lookup.sort(..., reverse=True)`. -/
def lookupRel : (Str × List Str) → (Str × List Str) → Prop :=
  fun a b => maxVarLen b.2 ≤ maxVarLen a.2

instance : DecidableRel lookupRel := fun _ _ => Nat.decLe _ _

/-- Model of `build_town_lookup`: one `(town, variants)` entry per gazetteer row, then
a stable sort, descending by the length of the longest variant. -/
def build_town_lookup (gaz : List Str) : List (Str × List Str) :=
  List.insertionSort lookupRel (gaz.map (fun t => (t, town_variants t)))

/-- Word characters of Python's `\w` (Unicode) restricted to the repertoire
used by the program: ASCII alphanumerics, underscore, and the Maltese and
accented letters of the ASCII-mapping table. -/
def extra_word_chars : List Char :=
  ['Ħ', 'ħ', 'Ġ', 'ġ', 'Ż', 'ż', 'Ċ', 'ċ', 'À', 'à',
   'È', 'è', 'Ì', 'ì', 'Ò', 'ò', 'Ù', 'ù']

def isWordChar (c : Char) : Bool :=
  c.isAlphanum || c == '_' || extra_word_chars.contains c

/-- Whitespace characters of Python's `\s` (ASCII repertoire). -/
def isSpaceChar (c : Char) : Bool :=
  c == ' ' || c == '\t' || c == '\n' || c == '\r' || c == '\x0b' || c == '\x0c'

def isWordAt (s : Str) (i : Nat) : Bool :=
  match s[i]? with
  | some c => isWordChar c
  | none => false

/-- Word boundary `\b` at position `i`: exactly one of the adjacent positions
holds a word character (positions outside the string count as non-word). -/
def boundaryAt (s : Str) (i : Nat) : Bool :=
  (if i = 0 then false else isWordAt s (i - 1)) != isWordAt s i

/-- Literal (case-sensitive) occurrence of `pat` at position `i` of `s`,
modelling `re.escape`d pattern text. -/
def litAt (s : Str) (i : Nat) (pat : Str) : Bool :=
  (s.drop i).take pat.length == pat

/-- Lower-casing used to model `re.IGNORECASE`, covering ASCII plus the
Maltese/accented letters of the program's repertoire. -/
def lowerPairs : List (Char × Char) :=
  [('Ħ', 'ħ'), ('Ġ', 'ġ'), ('Ż', 'ż'), ('Ċ', 'ċ'), ('À', 'à'),
   ('È', 'è'), ('Ì', 'ì'), ('Ò', 'ò'), ('Ù', 'ù')]

def lowerChar (c : Char) : Char :=
  match lowerPairs.find? (fun p => p.1 == c) with
  | some p => p.2
  | none => c.toLower

/-- Case-insensitive literal occurrence of `pat` at position `i` of `s`. -/
def ciLitAt (s : Str) (i : Nat) (pat : Str) : Bool :=
  ((s.drop i).take pat.length).map lowerChar == pat.map lowerChar

/-- Model of `re.search(r'\b' + re.escape(pat) + r'\b', s)`: start offset of
the leftmost whole-word occurrence of the literal `pat`. -/
def searchWholeWord (s pat : Str) : Option Nat :=
  (List.range (s.length + 1)).find? (fun i =>
    litAt s i pat && boundaryAt s i && boundaryAt s (i + pat.length))

/-- Absence test of the source's guard `if not content or pd.isna(content)`:
`None`/`NaN` (modelled as `none`) or the empty (falsy) string. -/
def contentAbsent : Option Str → Bool
  | none => true
  | some c => c.isEmpty

/-- Ascending order on recorded match offsets, used by `matches.sort(key=lambda x: x[0])`. -/
def offRel : (Nat × Str) → (Nat × Str) → Prop :=
  fun a b => a.1 ≤ b.1

instance : DecidableRel offRel := fun a b => Nat.decLe a.fst b.fst

/-- Per-entry recorded matches of `extract_town`: for each `(town, variants)`
entry of the lookup (in index order), the start offset of the leftmost
whole-word occurrence of the first variant (in variant-list order) that
occurs in the normalized content, paired with the official name. -/
def town_matches (nc : Str) (lookup : List (Str × List Str)) : List (Nat × Str) :=
  lookup.filterMap (fun e =>
    (e.2.findSome? (fun v => searchWholeWord nc (normalize_apostrophes v))).map
      (fun off => (off, e.1)))

/-- Model of `extract_town`: stable-sort the recorded matches by offset and
return the official name of the first, if any. -/
def extract_town (content : Option Str) (gaz : List Str) : Option Str :=
  if contentAbsent content then none
  else
    match content with
    | none => none
    | some c =>
      let nc := normalize_apostrophes c
      let ms := town_matches nc (build_town_lookup gaz)
      (List.insertionSort offRel ms).head?.map Prod.snd

/-- One lookup entry has some matching variant (the inner `for`/`break` of
`extract_all_towns`). -/
def townHasMatch (nc : Str) (vars : List Str) : Bool :=
  vars.any (fun v => (searchWholeWord nc (normalize_apostrophes v)).isSome)

/-- Accumulating loop of `extract_all_towns` over the lookup entries. -/
def extractAllAux (nc : Str) : List (Str × List Str) → List Str → List Str
  | [], found => found
  | e :: rest, found =>
    if e.1 ∈ found then extractAllAux nc rest found
    else if townHasMatch nc e.2 then extractAllAux nc rest (found ++ [e.1])
    else extractAllAux nc rest found

/-- Model of `extract_all_towns`: every official town with a matching variant,
in index order, each at most once. -/
def extract_all_towns (content : Option Str) (gaz : List Str) : List Str :=
  if contentAbsent content then []
  else
    match content with
    | none => []
    | some c => extractAllAux (normalize_apostrophes c) (build_town_lookup gaz) []

/-- The fixed Maltese road-designator words (`maltese_prefixes`). -/
def maltese_prefixes : List Str :=
  (["Triq", "Vjal", "Telgħa", "Telgha", "Sqaq", "Misraħ",
    "Misrah", "Dawret", "Xatt", "Pjazza", "Piazza"]).map String.toList

/-- The fixed English road-type suffix words (`english_suffixes`). -/
def english_suffixes : List Str :=
  (["Road", "Street", "Avenue", "Drive", "Lane", "Square",
    "Wharf", "Seafront", "Hill", "Promenade", "Gardens", "Place"]).map String.toList

/-- Length of the maximal whitespace run of `s` starting at `i`. -/
def spaceRunFrom (s : Str) (i : Nat) : Nat :=
  ((s.drop i).takeWhile isSpaceChar).length

/-- Length of the maximal run of word-or-apostrophe characters of `s`
starting at `i` (the character class of `[\w']+`). -/
def wordRunFrom (s : Str) (i : Nat) : Nat :=
  ((s.drop i).takeWhile (fun c => isWordChar c || c == '\u0027')).length

/-- Descending range `[m, m-1, ..., lo]`, the exploration order of a greedy
quantifier over the number of characters it consumes. -/
def countdown (m lo : Nat) : List Nat :=
  (List.range (m + 1 - lo)).map (fun k => m - k)

/-- Slice of `s` from position `a` (inclusive) to `b` (exclusive). -/
def slice (s : Str) (a b : Nat) : Str :=
  (s.drop a).take (b - a)

/-- Position of the first comma of `s` at or after position `j`. -/
def firstCommaFrom (s : Str) (j : Nat) : Option Nat :=
  ((s.drop j).findIdx? (fun c => c == ',')).map (fun k => k + j)

/-- Model of Python `str.strip()` (whitespace at both ends removed). -/
def pyStrip (s : Str) : Str :=
  ((s.dropWhile isSpaceChar).reverse.dropWhile isSpaceChar).reverse

/-- The trailing prepositions cleaned from a captured road name. -/
def prepositions : List Str :=
  (["in", "at", "near", "by"]).map String.toList

/-- Model of the cleaning step on a captured road,
`re.sub` of pattern `\s+(?:in|at|near|by)$` with the empty string,
case-insensitively: remove a final whitespace run followed by one of the
prepositions, if the string ends that way. -/
def stripTrailingPrep (s : Str) : Str :=
  match (List.range s.length).find? (fun p =>
      let r := spaceRunFrom s p
      decide (0 < r) &&
        prepositions.any (fun w => (s.drop (p + r)).map lowerChar == w.map lowerChar)) with
  | some p => s.take p
  | none => s

/-- Cascade pattern 1, `\b(PREFIX[^,]+),\s*TOWN\b`, attempted at
start position `i`: the greedy `[^,]+` must stop exactly at the next comma,
then optional whitespace, then the town variant ending at a word boundary.
Returns the captured group (designator word through the text before the comma). -/
def p1At (s : Str) (i : Nat) (pre town : Str) : Option Str :=
  if boundaryAt s i && litAt s i pre then
    let j := i + pre.length
    match firstCommaFrom s j with
    | some cpos =>
      if j < cpos then
        (countdown (spaceRunFrom s (cpos + 1)) 0).findSome? (fun a =>
          let q := cpos + 1 + a
          if litAt s q town && boundaryAt s (q + town.length) then
            some (slice s i cpos)
          else none)
      else none
    | none => none
  else none

/-- Leftmost match of cascade pattern 1 (`re.search`). -/
def p1Search (s : Str) (pre town : Str) : Option Str :=
  (List.range (s.length + 1)).findSome? (fun i => p1At s i pre town)

/-- Consume exactly `k` repetitions of `[\w']+\s+` starting at `g`; inside a
repetition both runs are forced maximal (shorter choices always fail because
the following atom needs the opposite character class). Returns the position
after the `k` repetitions. -/
def p2reps (s : Str) : Nat → Nat → Option Nat
  | g, 0 => some g
  | g, k + 1 =>
    let w := wordRunFrom s g
    if w = 0 then none
    else
      let sp := spaceRunFrom s (g + w)
      if sp = 0 then none else p2reps s (g + w + sp) k

/-- Group-and-tail of cascade pattern 2 starting at group position `g`:
`((?:[\w']+\s+){0,4}SUFFIX),\s*TOWN\b`, case-insensitively, the `{0,4}`
quantifier explored greedily (4 repetitions first). Returns the captured group. -/
def p2At (s : Str) (g : Nat) (sfx town : Str) : Option Str :=
  (countdown 4 0).findSome? (fun k =>
    match p2reps s g k with
    | some q =>
      if ciLitAt s q sfx then
        let e := q + sfx.length
        if s[e]? == some ',' then
          (countdown (spaceRunFrom s (e + 1)) 0).findSome? (fun a =>
            let t := e + 1 + a
            if ciLitAt s t town && boundaryAt s (t + town.length) then
              some (slice s g e)
            else none)
        else none
      else none
    | none => none)

/-- Leading alternation `(?:^|in\s+|at\s+|along\s+(?:the\s+)?)` of cascade
pattern 2 anchored at position `i`, alternatives in written order, greedy
whitespace and greedy optional `the`. -/
def p2Lead (s : Str) (i : Nat) (sfx town : Str) : Option Str :=
  (if i = 0 then p2At s 0 sfx town else none)
  <|> (if ciLitAt s i ['i', 'n'] then
        (countdown (spaceRunFrom s (i + 2)) 1).findSome? (fun a =>
          p2At s (i + 2 + a) sfx town)
      else none)
  <|> (if ciLitAt s i ['a', 't'] then
        (countdown (spaceRunFrom s (i + 2)) 1).findSome? (fun a =>
          p2At s (i + 2 + a) sfx town)
      else none)
  <|> (if ciLitAt s i ['a', 'l', 'o', 'n', 'g'] then
        (countdown (spaceRunFrom s (i + 5)) 1).findSome? (fun a =>
          let p := i + 5 + a
          (if ciLitAt s p ['t', 'h', 'e'] then
            (countdown (spaceRunFrom s (p + 3)) 1).findSome? (fun b =>
              p2At s (p + 3 + b) sfx town)
          else none)
          <|> p2At s p sfx town)
      else none)

/-- Leftmost match of cascade pattern 2 (`re.search`, `re.IGNORECASE`). -/
def p2Search (s : Str) (sfx town : Str) : Option Str :=
  (List.range (s.length + 1)).findSome? (fun i => p2Lead s i sfx town)

/-- Tail `\s+in\s+TOWN\b` of cascade pattern 3 at position `p` (case-insensitive). -/
def p3Tail (s : Str) (p : Nat) (town : Str) : Bool :=
  (countdown (spaceRunFrom s p) 1).any (fun a =>
    let q := p + a
    ciLitAt s q ['i', 'n'] &&
      (countdown (spaceRunFrom s (q + 2)) 1).any (fun b =>
        let r := q + 2 + b
        ciLitAt s r town && boundaryAt s (r + town.length)))

/-- Lazy group `(.+?),?` of cascade pattern 3 starting at `g`: grow the
capture one (non-newline) character at a time, preferring the optional comma,
until the tail matches. Returns the captured group. -/
def p3Group (s : Str) (g : Nat) (town : Str) : Option Str :=
  (List.range' 1 (s.length - g)).findSome? (fun L =>
    let e := g + L
    if (slice s g e).all (fun c => c != '\n') &&
        ((s[e]? == some ',' && p3Tail s (e + 1) town) || p3Tail s e town) then
      some (slice s g e)
    else none)

/-- Leftmost match of cascade pattern 3,
`along\s+(?:the\s+)?(.+?),?\s+in\s+TOWN\b` (case-insensitive). -/
def p3Search (s : Str) (town : Str) : Option Str :=
  (List.range (s.length + 1)).findSome? (fun i =>
    if ciLitAt s i ['a', 'l', 'o', 'n', 'g'] then
      (countdown (spaceRunFrom s (i + 5)) 1).findSome? (fun a =>
        let p := i + 5 + a
        (if ciLitAt s p ['t', 'h', 'e'] then
          (countdown (spaceRunFrom s (p + 3)) 1).findSome? (fun b =>
            p3Group s (p + 3 + b) town)
        else none)
        <|> p3Group s p town)
    else none)

/-- Character class of the Maltese road fallback (word characters, whitespace,
apostrophe, backslash, hyphen). -/
def mfClassChar (c : Char) : Bool :=
  isWordChar c || isSpaceChar c || c == '\u0027' || c == '\\' || c == '-'

/-- Terminator `(?:,|\.|\s+corner)` of the Maltese road fallback at position `p`. -/
def mfTermAt (s : Str) (p : Nat) : Bool :=
  s[p]? == some ',' || s[p]? == some '.' ||
    (decide (0 < spaceRunFrom s p) &&
      litAt s (p + spaceRunFrom s p) ['c', 'o', 'r', 'n', 'e', 'r'])

/-- Maltese road fallback `\b(PREFIX\s+[class]+?)(?:,|\.|\s+corner)`
attempted at start position `i`: greedy `\s+` (largest run first), then the
lazy class run grown one character at a time until a terminator follows.
Returns the captured group. -/
def mfAt (s : Str) (i : Nat) (pre : Str) : Option Str :=
  if boundaryAt s i && litAt s i pre then
    let j := i + pre.length
    (countdown (spaceRunFrom s j) 1).findSome? (fun a =>
      let g := j + a
      (List.range' 1 (s.length - g)).findSome? (fun L =>
        if (slice s g (g + L)).all mfClassChar && mfTermAt s (g + L) then
          some (slice s i (g + L))
        else none))
  else none

/-- Leftmost match of the Maltese road fallback (`re.search`). -/
def mfSearch (s : Str) (pre : Str) : Option Str :=
  (List.range (s.length + 1)).findSome? (fun i => mfAt s i pre)

/-- English road fallback `\b((?:[\w']+\s+){1,4}SUFFIX)\b` attempted at
start position `i` (case-sensitive), `{1,4}` explored greedily. -/
def efAt (s : Str) (i : Nat) (sfx : Str) : Option Str :=
  if boundaryAt s i then
    (countdown 4 1).findSome? (fun k =>
      match p2reps s i k with
      | some q =>
        if litAt s q sfx && boundaryAt s (q + sfx.length) then
          some (slice s i (q + sfx.length))
        else none
      | none => none)
  else none

/-- Leftmost match of the English road fallback (`re.search`). -/
def efSearch (s : Str) (sfx : Str) : Option Str :=
  (List.range (s.length + 1)).findSome? (fun i => efAt s i sfx)

/-- Descending order on variant length used by the sort of
`all_town_variations` (`key=len`, `reverse=True`). -/
def varLenRel : (Str × Str) → (Str × Str) → Prop :=
  fun a b => b.1.length ≤ a.1.length

instance : DecidableRel varLenRel := fun _ _ => Nat.decLe _ _

/-- The `(normalized variant, official town)` cross-product of the lookup, in
index order, then stable-sorted by descending variant length. -/
def all_town_variations (lookup : List (Str × List Str)) : List (Str × Str) :=
  List.insertionSort varLenRel
    ((lookup.map (fun e => e.2.map (fun v => (normalize_apostrophes v, e.1)))).flatten)

/-- The three-stage pattern cascade applied to one `(variant, official)`
candidate: Maltese-prefix pattern (each designator word in order, with strip
and trailing-preposition cleaning), then English-suffix pattern (each suffix
word in order, with strip), then the `along ... in` pattern (with strip).
Returns the `(road, official town)` of the first success. -/
def cascadeAttempt (nc : Str) (tv : Str × Str) : Option (Str × Str) :=
  ((maltese_prefixes.findSome? (fun pre => p1Search nc pre tv.1)).map
      (fun g => (stripTrailingPrep (pyStrip g), tv.2)))
  <|> ((english_suffixes.findSome? (fun sfx => p2Search nc sfx tv.1)).map
      (fun g => (pyStrip g, tv.2)))
  <|> ((p3Search nc tv.1).map (fun g => (pyStrip g, tv.2)))

/-- Model of `extract_road_and_town`: absent content short-circuits to
`(None, None)`; otherwise the cascade over all town-variant candidates, and on
failure the independent fallback (town via `extract_town`, road via the
relaxed Maltese then English road patterns). -/
def extract_road_and_town (content : Option Str) (gaz : List Str) :
    Option Str × Option Str :=
  if contentAbsent content then (none, none)
  else
    match content with
    | none => (none, none)
    | some c =>
      let nc := normalize_apostrophes c
      let lookup := build_town_lookup gaz
      match (all_town_variations lookup).findSome? (fun tv => cascadeAttempt nc tv) with
      | some rt => (some rt.1, some rt.2)
      | none =>
        let town := extract_town content gaz
        match maltese_prefixes.findSome? (fun pre => mfSearch nc pre) with
        | some g => (some (stripTrailingPrep (pyStrip g)), town)
        | none =>
          match english_suffixes.findSome? (fun sfx => efSearch nc sfx) with
          | some g => (some (pyStrip g), town)
          | none => (none, town)

/-- Model of `extract_location`, a pure alias of `extract_road_and_town`. -/
def extract_location (content : Option Str) (gaz : List Str) :
    Option Str × Option Str :=
  extract_road_and_town content gaz

/-! ### Data and orders used by the theorems below -/

/-- Sequential single-character replacement, at the level of one character. -/
def chainReplace : List (Char × Char) → Char → Char
  | [], c => c
  | p :: ps, c => chainReplace ps (if c = p.1 then p.2 else c)

/-- The apostrophe folds of `normalize_apostrophes` as a replacement table. -/
def apostrophePairs : List (Char × Char) :=
  apostrophe_variants.map (fun a => (a, '\u0027'))

instance : IsTotal (Str × List Str) lookupRel :=
  ⟨fun a b => Nat.le_total (maxVarLen b.2) (maxVarLen a.2)⟩

instance : IsTrans (Str × List Str) lookupRel :=
  ⟨fun _ _ _ hab hbc => le_trans hbc hab⟩

instance : IsTotal (Nat × Str) offRel := ⟨fun a b => Nat.le_total a.1 b.1⟩

instance : IsTrans (Nat × Str) offRel := ⟨fun _ _ _ hab hbc => le_trans hab hbc⟩

/-- Gazetteer of the C1 counterexample. -/
def c1Gaz : List Str := ["Il-Birgu".toList, "Valletta".toList]

/-- Content of the C1 counterexample: the alias `Vittoriosa` of `Il-Birgu`
appears first, then `Valletta`, then the canonical `Il-Birgu`. -/
def c1Content : Str :=
  "Vittoriosa crowds gathered before Valletta officials visited Il-Birgu today.".toList

/-- Gazetteer of the C2 scenario (canonical `L-Imsida`, which the alias
catalog maps to `Msida`). -/
def c2Gaz : List Str := ["L-Imsida".toList]

/-- Content of the C2 scenario. -/
def c2Content : Str :=
  "Police are investigating an incident on Msida Road, Msida.".toList

/-- Gazetteer of the C9 counterexample: two distinct canonical names where
one town's variant list contains the other's name. -/
def c9Gaz : List Str := ["Il-Birgu".toList, "Birgu".toList]

/-! ### Helper lemmas -/

theorem orElse_eq_some_cases {α : Type} (o₁ o₂ : Option α) (x : α)
    (h : (o₁ <|> o₂) = some x) : o₁ = some x ∨ o₂ = some x := by
  cases o₁ <;> simp_all [Option.orElse]

theorem foldl_replaceChar_eq_map (ps : List (Char × Char)) (s : Str) :
    ps.foldl (fun acc p => replaceChar p.1 p.2 acc) s = s.map (chainReplace ps) := by
  induction ps generalizing s with
  | nil => simp [chainReplace]
  | cons p ps ih =>
    simp only [List.foldl_cons]
    rw [ih]
    simp only [replaceChar, List.map_map]
    rfl

theorem chainReplace_not_key (ps : List (Char × Char)) (c : Char)
    (h : ∀ p ∈ ps, c ≠ p.1) : chainReplace ps c = c := by
  induction ps with
  | nil => rfl
  | cons p ps ih =>
    show chainReplace ps (if c = p.1 then p.2 else c) = c
    rw [if_neg (h p (List.mem_cons_self p ps))]
    exact ih (fun q hq => h q (List.mem_cons_of_mem p hq))

theorem chainReplace_eq_self_or_mem (ps : List (Char × Char)) :
    ∀ c : Char, chainReplace ps c = c ∨ chainReplace ps c ∈ ps.map Prod.snd := by
  induction ps with
  | nil => exact fun c => Or.inl rfl
  | cons p ps ih =>
    intro c
    show (chainReplace ps (if c = p.1 then p.2 else c) = c) ∨
      chainReplace ps (if c = p.1 then p.2 else c) ∈ (p :: ps).map Prod.snd
    by_cases hc : c = p.1
    · rw [if_pos hc]
      rcases ih p.2 with h | h
      · right
        rw [h]
        exact List.mem_cons_self p.2 (ps.map Prod.snd)
      · right
        exact List.mem_cons_of_mem p.2 h
    · rw [if_neg hc]
      rcases ih c with h | h
      · exact Or.inl h
      · exact Or.inr (List.mem_cons_of_mem p.2 h)

theorem chainReplace_idem (ps : List (Char × Char))
    (hfree : ∀ p ∈ ps, ∀ q ∈ ps, p.2 ≠ q.1) (c : Char) :
    chainReplace ps (chainReplace ps c) = chainReplace ps c := by
  rcases chainReplace_eq_self_or_mem ps c with h | h
  · rw [h]
    exact h
  · rcases List.mem_map.mp h with ⟨p, hp, hpc⟩
    exact chainReplace_not_key ps _ (fun q hq => hpc ▸ hfree p hp q hq)

theorem to_ascii_eq_map (s : Str) :
    to_ascii s = s.map (chainReplace create_ascii_mapping) :=
  foldl_replaceChar_eq_map create_ascii_mapping s

theorem normalize_apostrophes_eq_map (s : Str) :
    normalize_apostrophes s = s.map (chainReplace apostrophePairs) := by
  have h : apostrophePairs.foldl (fun acc p => replaceChar p.1 p.2 acc) s
      = apostrophe_variants.foldl (fun acc a => replaceChar a '\u0027' acc) s :=
    List.foldl_map (fun a => (a, '\u0027')) (fun acc p => replaceChar p.1 p.2 acc)
      apostrophe_variants s
  unfold normalize_apostrophes
  rw [← h]
  exact foldl_replaceChar_eq_map apostrophePairs s

/-! ### Claim theorems (first group) -/

/-- C3: absence propagation.  For every gazetteer, absent (`None`/`NaN`) or
empty content makes `extract_road_and_town` return `(absent, absent)`,
`extract_town` return absent, and `extract_all_towns` return the empty list;
all three are total functions, so absence is a normal return value, never an
error. -/
theorem absence_propagation (gaz : List Str) :
    extract_road_and_town none gaz = (none, none) ∧
    extract_road_and_town (some []) gaz = (none, none) ∧
    extract_town none gaz = none ∧
    extract_town (some []) gaz = none ∧
    extract_all_towns none gaz = [] ∧
    extract_all_towns (some []) gaz = [] :=
  ⟨rfl, rfl, rfl, rfl, rfl, rfl⟩

/-- C4: for every canonical town name, the variant list produced by
`create_town_variations` contains the town itself; in particular it is never
empty. -/
theorem create_town_variations_contains_self (town : Str) :
    town ∈ create_town_variations town ∧ create_town_variations town ≠ [] := by
  have h : ∃ l, create_town_variations town = town :: l := by
    unfold create_town_variations
    cases prefixes.find? (fun p => p.isPrefixOf town) with
    | none => exact ⟨[], rfl⟩
    | some p =>
      dsimp only
      by_cases hc : town.drop p.length ≠ [] ∧ town.drop p.length ≠ town
      · rw [if_pos hc]
        exact ⟨_, rfl⟩
      · rw [if_neg hc]
        exact ⟨[], rfl⟩
  rcases h with ⟨l, hl⟩
  rw [hl]
  exact ⟨List.mem_cons_self _ _, by simp⟩

/-- C6: the Town Lookup Index is sorted so that every entry's longest-variant
length is at least that of the next entry (descending by longest variant). -/
theorem build_town_lookup_sorted_desc (gaz : List Str) :
    List.Chain' (fun a b : Str × List Str => maxVarLen b.2 ≤ maxVarLen a.2)
      (build_town_lookup gaz) :=
  (List.sorted_insertionSort lookupRel (gaz.map (fun t => (t, town_variants t)))).chain'

theorem map_chainReplace_idem (ps : List (Char × Char))
    (hfree : ∀ p ∈ ps, ∀ q ∈ ps, p.2 ≠ q.1) (s : Str) :
    (s.map (chainReplace ps)).map (chainReplace ps) = s.map (chainReplace ps) := by
  rw [List.map_map]
  apply List.map_congr_left
  intro c _
  exact chainReplace_idem ps hfree c

/-- C7: both text normalizers are idempotent: applying `to_ascii` or
`normalize_apostrophes` twice gives the same result as applying it once, for
every input string. -/
theorem normalizers_idempotent (s : Str) :
    to_ascii (to_ascii s) = to_ascii s ∧
    normalize_apostrophes (normalize_apostrophes s) = normalize_apostrophes s := by
  constructor
  · have h1 := to_ascii_eq_map s
    have h2 := to_ascii_eq_map (s.map (chainReplace create_ascii_mapping))
    rw [h1, h2]
    exact map_chainReplace_idem create_ascii_mapping (by decide) s
  · have h1 := normalize_apostrophes_eq_map s
    have h2 := normalize_apostrophes_eq_map (s.map (chainReplace apostrophePairs))
    rw [h1, h2]
    exact map_chainReplace_idem apostrophePairs (by decide) s

/-! ### C5: article-prefix stripping -/

/-- C5 counterexample: for the town name `"Il-"` the first (indeed every
matching) prefix is `"Il-"` itself, yet the remainder after stripping it (the
empty string) is not among the produced variants, contradicting the claim
that the remainder is always added whenever some prefix matches. -/
theorem prefix_strip_cex :
    prefixes.find? (fun q => q.isPrefixOf ("Il-".toList)) = some ("Il-".toList) ∧
    ("Il-".toList).drop ("Il-".toList).length ∉ create_town_variations ("Il-".toList) := by
  decide

/-- C5 amended: if the first matching article prefix (in list order) leaves a
non-empty remainder, then the variant list is exactly the town followed by
that remainder — so the first matching prefix is stripped, only once, and no
variant from any other prefix (or from stripping twice) is added. -/
theorem create_town_variations_first_prefix_strip (t p : Str)
    (hfind : prefixes.find? (fun q => q.isPrefixOf t) = some p)
    (hbase : t.drop p.length ≠ []) :
    create_town_variations t = [t, t.drop p.length] := by
  have hp : p ∈ prefixes := List.mem_of_find?_eq_some hfind
  have hlen : 0 < p.length := by
    have hall : ∀ q ∈ prefixes, 0 < q.length := by decide
    exact hall p hp
  have hpre := List.find?_some hfind
  have hle : p.length ≤ t.length :=
    (List.isPrefixOf_iff_prefix.mp hpre).length_le
  have hne : t.drop p.length ≠ t := by
    intro he
    have h1 : (t.drop p.length).length = t.length := by rw [he]
    rw [List.length_drop] at h1
    have h0 : t.length ≠ 0 := by
      intro h0
      exact hbase (List.eq_nil_of_length_eq_zero (by omega))
    omega
  unfold create_town_variations
  rw [hfind]
  dsimp only
  rw [if_pos ⟨hbase, hne⟩]

/-- C5 witness: concrete instance of the amended theorem for `"Il-Birgu"`. -/
theorem create_town_variations_first_prefix_strip_witness :
    create_town_variations ("Il-Birgu".toList) = ["Il-Birgu".toList, "Birgu".toList] :=
  create_town_variations_first_prefix_strip ("Il-Birgu".toList) ("Il-".toList)
    (by decide) (by decide)

/-! ### C8: extract_all_towns is duplicate-free and in index order -/

theorem extractAllAux_sublist (nc : Str) (entries : List (Str × List Str)) :
    ∀ found : List Str,
      List.Sublist (extractAllAux nc entries found) (found ++ entries.map Prod.fst) := by
  induction entries with
  | nil =>
    intro found
    simp [extractAllAux]
  | cons e rest ih =>
    intro found
    simp only [extractAllAux, List.map_cons]
    split
    · exact (ih found).trans ((List.sublist_cons_self e.1 (rest.map Prod.fst)).append_left found)
    · split
      · have h := ih (found ++ [e.1])
        rw [List.append_assoc] at h
        simpa using h
      · exact (ih found).trans ((List.sublist_cons_self e.1 (rest.map Prod.fst)).append_left found)

theorem extractAllAux_nodup (nc : Str) (entries : List (Str × List Str)) :
    ∀ found : List Str, found.Nodup → (extractAllAux nc entries found).Nodup := by
  induction entries with
  | nil =>
    intro found h
    simpa [extractAllAux] using h
  | cons e rest ih =>
    intro found h
    simp only [extractAllAux]
    split
    · exact ih found h
    · next hmem =>
      split
      · apply ih
        simp [List.nodup_append, h, hmem]
      · exact ih found h

theorem extract_all_towns_sublist_lookup (content : Option Str) (gaz : List Str) :
    List.Sublist (extract_all_towns content gaz) ((build_town_lookup gaz).map Prod.fst) := by
  unfold extract_all_towns
  split
  · simp
  · cases content with
    | none => simp
    | some c =>
      simpa using extractAllAux_sublist (normalize_apostrophes c) (build_town_lookup gaz) []

theorem extract_all_towns_nodup (content : Option Str) (gaz : List Str) :
    (extract_all_towns content gaz).Nodup := by
  unfold extract_all_towns
  split
  · simp
  · cases content with
    | none => simp
    | some c => exact extractAllAux_nodup (normalize_apostrophes c) (build_town_lookup gaz) [] List.nodup_nil

/-- C8: for every content and gazetteer, `extract_all_towns` returns a
duplicate-free list whose elements appear in Town Lookup Index order
(longest-variant-first), i.e. the result is a sublist of the index's official
names in index order. -/
theorem extract_all_towns_nodup_and_index_order (content : Option Str) (gaz : List Str) :
    (extract_all_towns content gaz).Nodup ∧
    List.Sublist (extract_all_towns content gaz) ((build_town_lookup gaz).map Prod.fst) :=
  ⟨extract_all_towns_nodup content gaz, extract_all_towns_sublist_lookup content gaz⟩

/-! ### extract_town: structure of a successful result -/

theorem extract_town_eq_some_spec (content : Option Str) (gaz : List Str) (t : Str)
    (h : extract_town content gaz = some t) :
    ∃ c, content = some c ∧
      ∃ o, (o, t) ∈ town_matches (normalize_apostrophes c) (build_town_lookup gaz) ∧
        ∀ q ∈ town_matches (normalize_apostrophes c) (build_town_lookup gaz), o ≤ q.1 := by
  unfold extract_town at h
  split at h
  · exact absurd h (by simp)
  · cases content with
    | none => exact absurd h (by simp)
    | some c =>
      refine ⟨c, rfl, ?_⟩
      dsimp only at h
      rcases Option.map_eq_some'.mp h with ⟨pair, hhead, hsnd⟩
      have hsort :=
        List.sorted_insertionSort offRel
          (town_matches (normalize_apostrophes c) (build_town_lookup gaz))
      have hperm :=
        List.perm_insertionSort offRel
          (town_matches (normalize_apostrophes c) (build_town_lookup gaz))
      have hmem : pair ∈ town_matches (normalize_apostrophes c) (build_town_lookup gaz) :=
        hperm.mem_iff.mp (List.mem_of_mem_head? hhead)
      refine ⟨pair.1, ?_, ?_⟩
      · rw [← hsnd]
        simpa using hmem
      · intro q hq
        have hqmem := hperm.mem_iff.mpr hq
        cases hlist : List.insertionSort offRel
            (town_matches (normalize_apostrophes c) (build_town_lookup gaz)) with
        | nil =>
          rw [hlist] at hhead
          exact absurd hhead (by simp)
        | cons x xs =>
          rw [hlist] at hhead hqmem hsort
          have hx : x = pair := by simpa using hhead
          rcases List.mem_cons.mp hqmem with h1 | h1
          · rw [← hx, h1]
          · have := (List.pairwise_cons.mp hsort).1 q h1
            rw [← hx]
            exact this

/-! ### C1: which offset extract_town actually minimises -/

/-- C1 counterexample: in `c1Content`, variants of the two distinct towns
`Il-Birgu` and `Valletta` both match as whole words; the variant with the
smallest offset is `Vittoriosa` (a variant of `Il-Birgu`, at offset 0, before
`Valletta` at offset 34), yet `extract_town` returns `Valletta` — because for
`Il-Birgu` it records the offset of the first variant in variant-list order
(`Il-Birgu`, at offset 61), not the smallest offset over all its variants. -/
theorem extract_town_not_offset_minimal_cex :
    "Vittoriosa".toList ∈ town_variants ("Il-Birgu".toList) ∧
    searchWholeWord (normalize_apostrophes c1Content)
      (normalize_apostrophes ("Vittoriosa".toList)) = some 0 ∧
    searchWholeWord (normalize_apostrophes c1Content)
      (normalize_apostrophes ("Valletta".toList)) = some 34 ∧
    extract_town (some c1Content) c1Gaz = some ("Valletta".toList) := by
  decide

/-- C1 amended: a non-absent result of `extract_town` is the official name of
a lookup entry whose recorded offset — the offset of the leftmost whole-word
occurrence of the first variant, in variant-list order, that matches — is
minimal among the recorded offsets of all matching entries ("first recorded
match wins", which differs from "smallest offset over all variants wins"). -/
theorem extract_town_min_recorded_offset (content : Option Str) (gaz : List Str) (t : Str)
    (h : extract_town content gaz = some t) :
    ∃ c, content = some c ∧
      ∃ o, (o, t) ∈ town_matches (normalize_apostrophes c) (build_town_lookup gaz) ∧
        ∀ q ∈ town_matches (normalize_apostrophes c) (build_town_lookup gaz), o ≤ q.1 :=
  extract_town_eq_some_spec content gaz t h

/-- C1 witness: the amended theorem instantiated at the counterexample data. -/
theorem extract_town_min_recorded_offset_witness :
    ∃ c, (some c1Content : Option Str) = some c ∧
      ∃ o, (o, "Valletta".toList) ∈
          town_matches (normalize_apostrophes c) (build_town_lookup c1Gaz) ∧
        ∀ q ∈ town_matches (normalize_apostrophes c) (build_town_lookup c1Gaz), o ≤ q.1 :=
  extract_town_min_recorded_offset (some c1Content) c1Gaz ("Valletta".toList) (by decide)

/-! ### C10: every returned town is a gazetteer canonical name -/

theorem town_matches_snd_mem (nc : Str) (lk : List (Str × List Str)) (o : Nat) (t : Str)
    (h : (o, t) ∈ town_matches nc lk) : t ∈ lk.map Prod.fst := by
  rcases List.mem_filterMap.mp h with ⟨e, he, hfe⟩
  rcases Option.map_eq_some'.mp hfe with ⟨off, _, heq⟩
  injection heq with h1 h2
  exact h2 ▸ List.mem_map_of_mem Prod.fst he

theorem build_town_lookup_fst_mem (gaz : List Str) (e : Str × List Str)
    (h : e ∈ build_town_lookup gaz) : e.1 ∈ gaz := by
  unfold build_town_lookup at h
  have h2 : e ∈ gaz.map (fun t => (t, town_variants t)) :=
    (List.perm_insertionSort lookupRel _).mem_iff.mp h
  rcases List.mem_map.mp h2 with ⟨t, ht, rfl⟩
  exact ht

theorem extract_town_mem_gaz (content : Option Str) (gaz : List Str) (t : Str)
    (h : extract_town content gaz = some t) : t ∈ gaz := by
  rcases extract_town_eq_some_spec content gaz t h with ⟨c, _, o, hmem, _⟩
  have h2 := town_matches_snd_mem _ _ _ _ hmem
  rcases List.mem_map.mp h2 with ⟨e, he, hfst⟩
  exact hfst ▸ build_town_lookup_fst_mem gaz e he

theorem all_town_variations_snd_mem (lk : List (Str × List Str)) (tv : Str × Str)
    (h : tv ∈ all_town_variations lk) : tv.2 ∈ lk.map Prod.fst := by
  unfold all_town_variations at h
  have h2 : tv ∈ (lk.map (fun e => e.2.map (fun v => (normalize_apostrophes v, e.1)))).flatten :=
    (List.perm_insertionSort varLenRel _).mem_iff.mp h
  rcases List.mem_flatten.mp h2 with ⟨l, hl, htv⟩
  rcases List.mem_map.mp hl with ⟨e, he, rfl⟩
  rcases List.mem_map.mp htv with ⟨v, _, rfl⟩
  exact List.mem_map_of_mem Prod.fst he

theorem cascadeAttempt_snd (nc : Str) (tv : Str × Str) (rt : Str × Str)
    (h : cascadeAttempt nc tv = some rt) : rt.2 = tv.2 := by
  unfold cascadeAttempt at h
  rcases orElse_eq_some_cases _ _ _ h with h1 | h1
  · rcases Option.map_eq_some'.mp h1 with ⟨g, _, hg⟩
    rw [← hg]
  · rcases orElse_eq_some_cases _ _ _ h1 with h2 | h2
    · rcases Option.map_eq_some'.mp h2 with ⟨g, _, hg⟩
      rw [← hg]
    · rcases Option.map_eq_some'.mp h2 with ⟨g, _, hg⟩
      rw [← hg]

theorem extract_road_and_town_town_mem (content : Option Str) (gaz : List Str) (t : Str)
    (h : (extract_road_and_town content gaz).2 = some t) : t ∈ gaz := by
  unfold extract_road_and_town at h
  split at h
  · exact absurd h (by simp)
  · cases content with
    | none => exact absurd h (by simp)
    | some c =>
      dsimp only at h
      split at h
      · next rt hcas =>
        simp only at h
        rcases List.exists_of_findSome?_eq_some hcas with ⟨tv, htv, hca⟩
        have hsnd := cascadeAttempt_snd _ _ _ hca
        have ht : t = tv.2 := by
          injection h with h2
          rw [← h2, hsnd]
        have h3 := all_town_variations_snd_mem _ _ htv
        rcases List.mem_map.mp h3 with ⟨e, he, hfst⟩
        rw [ht, ← hfst]
        exact build_town_lookup_fst_mem gaz e he
      · split at h
        · next g hmf =>
          simp only at h
          exact extract_town_mem_gaz _ _ _ h
        · split at h
          · next g hef =>
            simp only at h
            exact extract_town_mem_gaz _ _ _ h
          · simp only at h
            exact extract_town_mem_gaz _ _ _ h

/-- C10: every non-absent town produced by the engine — by `extract_town`, as
the town component of `extract_road_and_town`, or as an element of
`extract_all_towns` — is one of the gazetteer's canonical town names. -/
theorem outputs_are_canonical_towns (content : Option Str) (gaz : List Str) :
    (∀ t, extract_town content gaz = some t → t ∈ gaz) ∧
    (∀ t, (extract_road_and_town content gaz).2 = some t → t ∈ gaz) ∧
    (∀ t ∈ extract_all_towns content gaz, t ∈ gaz) := by
  refine ⟨fun t ht => extract_town_mem_gaz content gaz t ht,
    fun t ht => extract_road_and_town_town_mem content gaz t ht,
    fun t ht => ?_⟩
  have hsub := extract_all_towns_sublist_lookup content gaz
  have h2 : t ∈ (build_town_lookup gaz).map Prod.fst := hsub.mem ht
  rcases List.mem_map.mp h2 with ⟨e, he, hfst⟩
  exact hfst ▸ build_town_lookup_fst_mem gaz e he

/-- C10 witness: the invariant applied at the C1 counterexample content,
whose result town `Valletta` is indeed a gazetteer entry. -/
theorem outputs_are_canonical_towns_witness :
    "Valletta".toList ∈ c1Gaz :=
  (outputs_are_canonical_towns (some c1Content) c1Gaz).1 ("Valletta".toList) (by decide)

/-! ### C2: the Msida Road scenario -/

/-- C2 counterexample: on the scenario content the engine does not return
road `"Msida Road"`; the anchored cascade finds no match (the English-suffix
pattern requires the road phrase to start the text or follow `in`/`at`/
`along`), and the relaxed English fallback, scanning leftmost with up to four
words before `Road`, captures `"an incident on Msida Road"` instead. -/
theorem msida_road_scenario_cex :
    extract_road_and_town (some c2Content) c2Gaz ≠
      (some ("Msida Road".toList), some ("L-Imsida".toList)) := by
  decide

/-- C2 amended: the scenario returns town `"L-Imsida"` as claimed, but the
road captured by the English-suffix fallback is `"an incident on Msida Road"`
(the leftmost match with the greedy four-word look-behind), not `"Msida
Road"`. -/
theorem msida_road_scenario :
    extract_road_and_town (some c2Content) c2Gaz =
      (some ("an incident on Msida Road".toList), some ("L-Imsida".toList)) := by
  decide

/-! ### C9: variant unambiguity -/

/-- C9 counterexample: for the gazetteer `[Il-Birgu, Birgu]` of distinct
canonical names, the built lookup is not pairwise variant-disjoint: the
variant `Birgu` (the prefix-stripped form of `Il-Birgu`) belongs to the
variant sets of both entries, so a matched variant does not always resolve to
a unique canonical town. -/
theorem variant_ambiguity_cex :
    c9Gaz.Nodup ∧
    ¬ List.Pairwise (fun e1 e2 : Str × List Str => ∀ v ∈ e1.2, v ∉ e2.2)
      (build_town_lookup c9Gaz) := by
  decide

/-- C9 amended: if the per-town variant lists generated from the gazetteer
are pairwise disjoint (which mere distinctness of the canonical names does
not guarantee), then in the built Town Lookup Index no variant string belongs
to the variant sets of two different entries, so every matched variant
resolves to exactly one canonical town. -/
theorem build_town_lookup_variant_unambiguous (gaz : List Str)
    (h : List.Pairwise (fun a b => ∀ v ∈ town_variants a, v ∉ town_variants b) gaz) :
    List.Pairwise (fun e1 e2 : Str × List Str => ∀ v ∈ e1.2, v ∉ e2.2)
      (build_town_lookup gaz) := by
  unfold build_town_lookup
  have hmap : List.Pairwise (fun e1 e2 : Str × List Str => ∀ v ∈ e1.2, v ∉ e2.2)
      (gaz.map (fun t => (t, town_variants t))) :=
    List.pairwise_map.mpr h
  exact (List.Perm.pairwise_iff
    (fun {e1 e2} (hab : ∀ v ∈ e1.2, v ∉ e2.2) v hv hv2 => hab v hv2 hv)
    (List.perm_insertionSort lookupRel _)).mpr hmap

/-- C9 witness: the amended theorem applied to a gazetteer with pairwise
disjoint variant lists. -/
theorem build_town_lookup_variant_unambiguous_witness :
    List.Pairwise (fun e1 e2 : Str × List Str => ∀ v ∈ e1.2, v ∉ e2.2)
      (build_town_lookup ["Valletta".toList, "Tas-Sliema".toList]) :=
  build_town_lookup_variant_unambiguous ["Valletta".toList, "Tas-Sliema".toList] (by decide)

end ExtractLocation
